import Mathlib

/-!
Shallow embedding of the `unreal-doc` core pipeline (src/config.rs,
src/document.rs, src/ast/unreal_cpp_header.rs) and verification of the
frozen claims about it.  Machine integers do not occur in the modelled
code; strings are Lean `String`/`List Char`; Rust `HashSet<String>` /
`HashMap<String, String>` are modelled as lists (association lists), which
is faithful for the operations the code performs on them (`contains`,
`any`, `insert`, `take`).  Fallible code (Rust panics) is modelled with
`Option`.
-/

namespace UnrealDoc

/-- Settings, from `config.rs` (`Settings` struct, all flags default to false). -/
structure Settings where
  show_all : Bool := false
  document_protected : Bool := false
  document_private : Bool := false
deriving Repr, DecidableEq

/-- Visibility, from `document.rs` (`Visibility` enum, default Public). -/
inductive Visibility where
  | Private
  | Protected
  | Public
deriving Repr, DecidableEq

/-- `Visibility::can_export`, from `document.rs`. -/
def Visibility.can_export (v : Visibility) (settings : Settings) : Bool :=
  match v with
  | .Public => true
  | .Protected => settings.document_protected
  | .Private => settings.document_private

/-- `Attribute`, from `document.rs`. -/
inductive Attribute where
  | Single (name : String)
  | Pair (key : String) (value : String)
deriving Repr, DecidableEq

/-- `Specifiers`, from `document.rs`. -/
structure Specifiers where
  attributes : List Attribute := []
  meta : List Attribute := []
deriving Repr, DecidableEq

/-- `Enum`, from `document.rs`. -/
structure Enum where
  specifiers : Option Specifiers := none
  name : String := ""
  variants : List String := []
  doc_comments : Option String := none
deriving Repr, DecidableEq

/-- `StructClassMode`, from `document.rs`. -/
inductive StructClassMode where
  | Struct
  | Class
deriving Repr, DecidableEq

/-- `StructClassMode::default_visibility`, from `document.rs`. -/
def StructClassMode.default_visibility (m : StructClassMode) : Visibility :=
  match m with
  | .Struct => .Public
  | .Class => .Private

/-- `PropertyArray`, from `document.rs`. -/
inductive PropertyArray where
  | None
  | Unsized
  | Sized (size : String)
deriving Repr, DecidableEq

/-- `Property`, from `document.rs`. -/
structure Property where
  specifiers : Option Specifiers := none
  name : String := ""
  value_type : String := ""
  array : PropertyArray := .None
  default_value : Option String := none
  visibility : Visibility := .Public
  is_static : Bool := false
  doc_comments : Option String := none
deriving Repr, DecidableEq

/-- `Argument`, from `document.rs`. -/
structure Argument where
  name : Option String := none
  value_type : String := ""
  default_value : Option String := none
  doc_comments : Option String := none
deriving Repr, DecidableEq

/-- `Function`, from `document.rs`. -/
structure Function where
  specifiers : Option Specifiers := none
  name : String := ""
  return_type : Option String := none
  visibility : Visibility := .Public
  template : Option String := none
  arguments : List Argument := []
  is_static : Bool := false
  is_virtual : Bool := false
  is_const_this : Bool := false
  is_override : Bool := false
  doc_comments : Option String := none
deriving Repr, DecidableEq

/-- `StructClass`, from `document.rs`.  The `injects` field is a
`HashSet<String>` in the source, modelled as a list: the code only ever
inserts into it, iterates it with `any`, and takes it whole. -/
structure StructClass where
  specifiers : Option Specifiers := none
  api : Option String := none
  mode : StructClassMode := .Struct
  name : String := ""
  inherits : List (Visibility × String) := []
  template : Option String := none
  properties : List Property := []
  methods : List Function := []
  doc_comments : Option String := none
  injects : List String := []
deriving Repr, DecidableEq

/-- `Proxy<T>`, from `document.rs`; the `tags` `HashSet<String>` is modelled
as a list, queried only through `contains`. -/
structure Proxy (T : Type) where
  tags : List String := []
  item : T
deriving Repr, DecidableEq

/-- `Document`, from `document.rs`.  `book` and `snippets` are
`HashMap<String, String>` in the source, modelled as association lists. -/
structure Document where
  enums : List Enum := []
  classes : List StructClass := []
  structs : List StructClass := []
  functions : List Function := []
  book : List (String × String) := []
  snippets : List (String × String) := []
  proxy_functions : List (Proxy Function) := []
  proxy_properties : List (Proxy Property) := []
deriving Repr, DecidableEq

/-- `Enum::can_export`, from `document.rs`. -/
def Enum.can_export (e : Enum) (settings : Settings) : Bool :=
  settings.show_all || e.doc_comments.isSome

/-- `Property::can_export`, from `document.rs`. -/
def Property.can_export (p : Property) (settings : Settings) : Bool :=
  p.doc_comments.isSome && p.visibility.can_export settings

/-- `Function::can_export`, from `document.rs`. -/
def Function.can_export (f : Function) (settings : Settings) : Bool :=
  f.doc_comments.isSome && f.visibility.can_export settings

/-- `StructClass::can_export`, from `document.rs`. -/
def StructClass.can_export (sc : StructClass) (settings : Settings) : Bool :=
  settings.show_all
    || sc.doc_comments.isSome
    || sc.properties.any (fun e => e.can_export settings)
    || sc.methods.any (fun e => e.can_export settings)

/-- Rust's `Vec::join(sep)` on strings, used by `Enum::signature`. -/
def joinSep (sep : String) : List String → String
  | [] => ""
  | [x] => x
  | x :: y :: rest => x ++ sep ++ joinSep sep (y :: rest)

/-- `Enum::signature`, from `document.rs`: the variants are rendered with
`format!("    {}", v)`, joined with `",\n"`, and spliced into
`format!("enum class {} : uint8 {\n{}\n};", name, variants)` (braces in the
format string doubled in the source). -/
def Enum.signature (e : Enum) : String :=
  let variants := joinSep ",\n" (e.variants.map (fun v => "    " ++ v))
  "enum class " ++ e.name ++ " : uint8 " ++ "\x7b" ++ "\n" ++ variants ++ "\n" ++ "\x7d" ++ ";"

/-- `StructClass::resolve_injects`, from `document.rs`: takes the `injects`
tag set, then for each registered proxy function/property whose tag set
meets the taken tags, pushes its item onto `methods`/`properties`. -/
def StructClass.resolve_injects (sc : StructClass) (functions : List (Proxy Function))
    (properties : List (Proxy Property)) : StructClass :=
  let tags := sc.injects
  let sc0 := { sc with injects := [] }
  let sc1 := functions.foldl
    (fun acc item =>
      if tags.any (fun tag => item.tags.contains tag) then
        { acc with methods := acc.methods ++ [item.item] }
      else acc) sc0
  properties.foldl
    (fun acc item =>
      if tags.any (fun tag => item.tags.contains tag) then
        { acc with properties := acc.properties ++ [item.item] }
      else acc) sc1

/-- `Document::resolve_injects`, from `document.rs`: `std::mem::take`s both
proxy lists, then resolves injects of the items of the `structs` list
(and of no other list). -/
def Document.resolve_injects (d : Document) : Document :=
  let proxy_functions := d.proxy_functions
  let proxy_properties := d.proxy_properties
  { d with
    proxy_functions := [],
    proxy_properties := [],
    structs := d.structs.map (fun item => item.resolve_injects proxy_functions proxy_properties) }

/-- The self-name replacement step, `replace_self_names` in `document.rs`,
is `content.replace("$Self$", owner)`.  Rust's `str::replace` substitutes
every non-overlapping match, scanning left to right; this is that
algorithm on character lists (the `pat ≠ []` guard is vacuous at the one
call site, whose pattern is `"$Self$"`). -/
def replaceList (pat repl : List Char) (s : List Char) : List Char :=
  match s with
  | [] => []
  | c :: rest =>
    if h : pat ≠ [] ∧ pat.isPrefixOf (c :: rest) = true then
      repl ++ replaceList pat repl ((c :: rest).drop pat.length)
    else
      c :: replaceList pat repl rest
termination_by s.length
decreasing_by
  · simp only [List.length_drop, List.length_cons]
    have hp : 0 < pat.length := List.length_pos.mpr h.1
    omega
  · simp

/-- `replace_self_names`, from `document.rs`. -/
def replace_self_names (content owner : String) : String :=
  String.mk (replaceList "$Self$".toList owner.toList content.toList)

/-- `Enum::resolve_self_names_in_docs`, from `document.rs`. -/
def Enum.resolve_self_names_in_docs (e : Enum) : Enum :=
  match e.doc_comments with
  | some content => { e with doc_comments := some (replace_self_names content e.name) }
  | none => e

/-- `Argument::resolve_self_names_in_docs`, from `document.rs`. -/
def Argument.resolve_self_names_in_docs (a : Argument) (owner : Option String) : Argument :=
  match owner, a.doc_comments with
  | some o, some content => { a with doc_comments := some (replace_self_names content o) }
  | _, _ => a

/-- `Function::resolve_self_names_in_docs`, from `document.rs`. -/
def Function.resolve_self_names_in_docs (f : Function) (owner : Option String) : Function :=
  let f' :=
    match owner, f.doc_comments with
    | some o, some content => { f with doc_comments := some (replace_self_names content o) }
    | _, _ => f
  { f' with arguments := f'.arguments.map (fun a => a.resolve_self_names_in_docs owner) }

/-- `Property::resolve_self_names_in_docs`, from `document.rs`. -/
def Property.resolve_self_names_in_docs (p : Property) (owner : String) : Property :=
  match p.doc_comments with
  | some content => { p with doc_comments := some (replace_self_names content owner) }
  | none => p

/-- `StructClass::resolve_self_names_in_docs`, from `document.rs`. -/
def StructClass.resolve_self_names_in_docs (sc : StructClass) : StructClass :=
  let sc' :=
    match sc.doc_comments with
    | some content => { sc with doc_comments := some (replace_self_names content sc.name) }
    | none => sc
  { sc' with
    properties := sc'.properties.map (fun item => item.resolve_self_names_in_docs sc.name),
    methods := sc'.methods.map (fun item => item.resolve_self_names_in_docs (some sc.name)) }

/-- `Document::resolve_self_names_in_docs`, from `document.rs`: top-level
loose functions are resolved with owner `None`. -/
def Document.resolve_self_names_in_docs (d : Document) : Document :=
  { d with
    enums := d.enums.map (fun item => item.resolve_self_names_in_docs),
    classes := d.classes.map (fun item => item.resolve_self_names_in_docs),
    structs := d.structs.map (fun item => item.resolve_self_names_in_docs),
    functions := d.functions.map (fun item => item.resolve_self_names_in_docs none) }

/-- `StructClass::sort_items_by_name`, from `document.rs`.  Rust's
`sort_by(|a, b| a.name.cmp(&b.name))` is a stable sort by name; so is
`List.mergeSort`. -/
def StructClass.sort_items_by_name (sc : StructClass) : StructClass :=
  { sc with
    properties := sc.properties.mergeSort (fun a b => decide (a.name ≤ b.name)),
    methods := sc.methods.mergeSort (fun a b => decide (a.name ≤ b.name)) }

/-- `Document::sort_items_by_name`, from `document.rs`. -/
def Document.sort_items_by_name (d : Document) : Document :=
  { d with
    classes := (d.classes.map (fun item => item.sort_items_by_name)).mergeSort
      (fun a b => decide (a.name ≤ b.name)),
    structs := (d.structs.map (fun item => item.sort_items_by_name)).mergeSort
      (fun a b => decide (a.name ≤ b.name)),
    enums := d.enums.mergeSort (fun a b => decide (a.name ≤ b.name)),
    functions := d.functions.mergeSort (fun a b => decide (a.name ≤ b.name)) }

/-! ### Parser-side embedding (`ast/unreal_cpp_header.rs`)

The pest grammar engine is an external collaborator: parse trees arrive
here already classified.  `parse_file` is modelled as a fold over the
classified file-scope entries; the element/proxy/snippet builders below
follow the corresponding functions of `ast/unreal_cpp_header.rs`. -/

/-- Rust's `char::is_whitespace` (the Unicode `White_Space` property),
used by the snippet dedent in `parse_snippet_inner`. -/
def rustIsWhitespace (c : Char) : Bool :=
  let n := c.toNat
  (0x09 ≤ n && n ≤ 0x0D) || n = 0x20 || n = 0x85 || n = 0xA0 || n = 0x1680
    || (0x2000 ≤ n && n ≤ 0x200A) || n = 0x2028 || n = 0x2029 || n = 0x202F
    || n = 0x205F || n = 0x3000

/-- Split a character list at every newline character (the parts keep no
newline); helper for `rustLines`. -/
def splitNl : List Char → List (List Char)
  | [] => [[]]
  | '\n' :: rest => [] :: splitNl rest
  | c :: rest =>
    match splitNl rest with
    | l :: ls => (c :: l) :: ls
    | [] => [[c]]

/-- Rust's `str::lines`: split at `'\n'`, drop one final empty part (a
trailing line terminator produces no extra line), and strip one trailing
`'\r'` from every part. -/
def rustLines (s : List Char) : List (List Char) :=
  let parts := splitNl s
  let parts := if parts.getLast? = some [] then parts.dropLast else parts
  parts.map (fun l => if l.getLast? = some '\r' then l.dropLast else l)

/-- `min_by(cmp).unwrap_or_default()` over the per-line indentation counts
of `parse_snippet_inner`: the minimum of the list, 0 when it is empty. -/
def min_level (ns : List Nat) : Nat :=
  match ns with
  | [] => 0
  | n :: rest => rest.foldl Nat.min n

/-- Rust byte slicing `line[n..]` of a UTF-8 string held as characters:
`some` of the characters after the first `n` bytes when byte index `n`
lands on a character boundary at or before the end, `none` (a Rust panic)
otherwise. -/
def dropBytes : Nat → List Char → Option (List Char)
  | 0, s => some s
  | _ + 1, [] => none
  | n + 1, c :: rest =>
    if c.utf8Size ≤ n + 1 then dropBytes (n + 1 - c.utf8Size) rest else none

/-- `parse_snippet_inner`, from `ast/unreal_cpp_header.rs`: the dedent
level is the minimum over all lines of the number of leading whitespace
characters (`chars().take_while(is_whitespace).count()`), and every line
is then byte-sliced at that level (`line[level..]`) and the lines joined
with `"\n"`; `none` models the slicing panic. -/
def parse_snippet_inner (s : String) : Option String :=
  let ls := rustLines s.toList
  let level := min_level (ls.map (fun line => (line.takeWhile rustIsWhitespace).length))
  (ls.mapM (dropBytes level)).map (fun ls => String.mk (List.intercalate ['\n'] ls))

/-- `Element`, from `ast/unreal_cpp_header.rs`. -/
inductive Element where
  | None
  | Enum (element : Enum)
  | StructClass (element : StructClass)
  | Property (element : Property)
  | Function (element : Function)
deriving Repr, DecidableEq

/-- One classified file-scope parse-tree entry consumed by `parse_file`:
an element, a proxy directive (doc comments, tags, and its re-parsed
inline content), or a snippet directive (id and raw body).  Other node
kinds are skipped by the source's catch-all match arm and carry no data,
so they are omitted. -/
inductive FileEntry where
  | element (el : Element)
  | proxy (doc_comments : Option String) (tags : List String) (content : Element)
  | snippet (id : String) (content : String)
deriving Repr, DecidableEq

/-- The `Rule::element` arm of `parse_file` (`ast/unreal_cpp_header.rs`,
lines 49–97): an exportable element is pushed onto the matching Document
list, with an overwrite diagnostic printed first when a same-named entry
already exists in that list; properties and `None` at file scope are
dropped.  The `String` list accumulates the printed diagnostics. -/
def admit_element (settings : Settings) (acc : Document × List String) (el : Element) :
    Document × List String :=
  match el with
  | .Enum element =>
    if element.can_export settings then
      let warns :=
        if acc.1.enums.any (fun item => item.name == element.name) then
          acc.2 ++ ["Overwriting existing enum: " ++ element.name]
        else acc.2
      ({ acc.1 with enums := acc.1.enums ++ [element] }, warns)
    else acc
  | .StructClass element =>
    match element.mode with
    | .Struct =>
      if element.can_export settings then
        let warns :=
          if acc.1.structs.any (fun item => item.name == element.name) then
            acc.2 ++ ["Overwriting existing struct: " ++ element.name]
          else acc.2
        ({ acc.1 with structs := acc.1.structs ++ [element] }, warns)
      else acc
    | .Class =>
      if element.can_export settings then
        let warns :=
          if acc.1.classes.any (fun item => item.name == element.name) then
            acc.2 ++ ["Overwriting existing class: " ++ element.name]
          else acc.2
        ({ acc.1 with classes := acc.1.classes ++ [element] }, warns)
      else acc
  | .Function element =>
    if element.can_export settings then
      let warns :=
        if acc.1.functions.any (fun item => item.name == element.name) then
          acc.2 ++ ["Overwriting existing function: " ++ element.name]
        else acc.2
      ({ acc.1 with functions := acc.1.functions ++ [element] }, warns)
    else acc
  | _ => acc

/-- `parse_proxy`, from `ast/unreal_cpp_header.rs`: only a Function or
Property content with a doc-comment block present is registered (with the
proxy's doc comments installed on the item); everything else is dropped. -/
def parse_proxy (doc_comments : Option String) (tags : List String) (content : Element)
    (d : Document) : Document :=
  match content with
  | .Function item =>
    match doc_comments with
    | some dc =>
      { d with proxy_functions :=
          d.proxy_functions ++ [{ tags := tags, item := { item with doc_comments := some dc } }] }
    | none => d
  | .Property item =>
    match doc_comments with
    | some dc =>
      { d with proxy_properties :=
          d.proxy_properties ++ [{ tags := tags, item := { item with doc_comments := some dc } }] }
    | none => d
  | _ => d

/-- `HashMap::insert` on the association-list model: replace the value of
an existing key, otherwise append the binding. -/
def insertAssoc (m : List (String × String)) (k v : String) : List (String × String) :=
  if m.any (fun kv => kv.1 == k) then
    m.map (fun kv => if kv.1 == k then (k, v) else kv)
  else m ++ [(k, v)]

/-- `parse_snippet`, from `ast/unreal_cpp_header.rs` (with the id and body
already extracted from the parse tree): dedent the body, warn when the id
is already registered, insert; `none` propagates the dedent panic. -/
def parse_snippet (id : String) (content : String) (acc : Document × List String) :
    Option (Document × List String) :=
  match parse_snippet_inner content with
  | some text =>
    let warns :=
      if acc.1.snippets.any (fun kv => kv.1 == id) then
        acc.2 ++ ["Overwriting existing snippet: " ++ id]
      else acc.2
    some ({ acc.1 with snippets := insertAssoc acc.1.snippets id text }, warns)
  | none => none

/-- `parse_file`, from `ast/unreal_cpp_header.rs`: fold the classified
file-scope entries into the document, in order; `none` models a panic
aborting the run. -/
def parse_file (settings : Settings) : Document × List String → List FileEntry →
    Option (Document × List String)
  | acc, [] => some acc
  | acc, entry :: rest =>
    match entry with
    | .element el => parse_file settings (admit_element settings acc el) rest
    | .proxy dc tags content => parse_file settings (parse_proxy dc tags content acc.1, acc.2) rest
    | .snippet id content =>
      match parse_snippet id content acc with
      | some acc' => parse_file settings acc' rest
      | none => none

/-- Whether `pat` occurs as a contiguous run inside `s`; the statement-side
reading of "the doc-comment text contains the placeholder". -/
def hasOcc (pat : List Char) : List Char → Bool
  | [] => pat.isEmpty
  | c :: rest => pat.isPrefixOf (c :: rest) || hasOcc pat rest

/-! ### Concrete instances used by counterexamples and witnesses -/

/-- All-default settings (every flag off), `Settings::default()`. -/
def s0 : Settings := {}

/-- A documented proxy property, as in the spec's injection scenario. -/
def exProxyProp : Property :=
  { name := "Id", value_type := "int32", doc_comments := some "Unique id." }

/-- A class (held in the `classes` list) carrying the matching injection tag. -/
def exClass : StructClass :=
  { mode := .Class, name := "AThing", doc_comments := some "A thing.",
    injects := ["serializable"] }

/-- A document with one tagged class and one matching registered proxy property. -/
def exDoc : Document :=
  { classes := [exClass],
    proxy_properties := [{ tags := ["serializable"], item := exProxyProp }] }

/-- First of two same-named documented enums, from the spec's collision scenario. -/
def eA : Enum := { name := "EStatus", variants := ["On"], doc_comments := some "First." }

/-- Second of two same-named documented enums. -/
def eB : Enum := { name := "EStatus", variants := ["Off"], doc_comments := some "Second." }

/-- The claim's reading of the enum variant block: each variant indented
four spaces, variants joined by a comma and a line break. -/
def enum_variants_block : List String → String
  | [] => ""
  | [v] => "    " ++ v
  | v :: w :: ws => "    " ++ v ++ ",\n" ++ enum_variants_block (w :: ws)

/-- The claim's stated fixed form of an enum signature, assembled
independently of the source's `map`/`join` pipeline. -/
def enum_signature_of_claim (e : Enum) : String :=
  "enum class " ++ e.name ++ " : uint8 " ++ "\x7b" ++ "\n"
    ++ enum_variants_block e.variants ++ "\n" ++ "\x7d" ++ ";"

/-! ### Helper lemmas -/

theorem foldl_push_methods (cond : Proxy Function → Bool) (fns : List (Proxy Function))
    (sc : StructClass) :
    fns.foldl
      (fun acc item =>
        if cond item then { acc with methods := acc.methods ++ [item.item] } else acc) sc
      = { sc with methods := sc.methods ++ (fns.filter cond).map Proxy.item } := by
  induction fns generalizing sc with
  | nil => simp
  | cons x xs ih =>
    by_cases h : cond x
    · simp [h, ih, List.filter_cons]
    · simp [h, ih, List.filter_cons]

theorem foldl_push_properties (cond : Proxy Property → Bool) (props : List (Proxy Property))
    (sc : StructClass) :
    props.foldl
      (fun acc item =>
        if cond item then { acc with properties := acc.properties ++ [item.item] } else acc) sc
      = { sc with properties := sc.properties ++ (props.filter cond).map Proxy.item } := by
  induction props generalizing sc with
  | nil => simp
  | cons x xs ih =>
    by_cases h : cond x
    · simp [h, ih, List.filter_cons]
    · simp [h, ih, List.filter_cons]

/-- Closed form of `StructClass::resolve_injects`: the tag set is drained
and the matching proxies' items are appended in registration order. -/
theorem resolve_injects_sc_eq (sc : StructClass) (fns : List (Proxy Function))
    (props : List (Proxy Property)) :
    sc.resolve_injects fns props =
      { sc with
        injects := [],
        methods := sc.methods ++
          (fns.filter (fun p => sc.injects.any (fun tag => p.tags.contains tag))).map Proxy.item,
        properties := sc.properties ++
          (props.filter (fun p => sc.injects.any (fun tag => p.tags.contains tag))).map Proxy.item } := by
  simp only [StructClass.resolve_injects]
  rw [foldl_push_methods, foldl_push_properties]

/-- A struct whose tag set is already empty is untouched by another
inject-resolution round. -/
theorem StructClass.resolve_injects_drained (sc : StructClass) (h : sc.injects = []) :
    sc.resolve_injects [] [] = sc := by
  rw [resolve_injects_sc_eq]
  simp only [List.filter_nil, List.map_nil, List.append_nil]
  rw [← h]

/-- Closed form of `Document::resolve_injects`. -/
theorem resolve_injects_doc_eq (d : Document) :
    d.resolve_injects =
      { d with
        proxy_functions := [],
        proxy_properties := [],
        structs := d.structs.map (fun sc =>
          { sc with
            injects := [],
            methods := sc.methods ++
              (d.proxy_functions.filter
                (fun p => sc.injects.any (fun tag => p.tags.contains tag))).map Proxy.item,
            properties := sc.properties ++
              (d.proxy_properties.filter
                (fun p => sc.injects.any (fun tag => p.tags.contains tag))).map Proxy.item }) } := by
  simp only [Document.resolve_injects]
  rw [List.map_congr_left
    (fun sc _ => resolve_injects_sc_eq sc d.proxy_functions d.proxy_properties)]

/-! ### Claims -/

/-- C1 (counterexample): a document whose `classes` list holds a
StructClass tagged `"serializable"` and whose proxy-property registry
holds a matching documented proxy; inject resolution leaves the class
untouched (its properties stay empty and its tag set is not even
consumed), refuting the claim that proxies are injected into every
StructClass whether held in `structs` or `classes`. -/
theorem c1_counterexample :
    (exDoc.resolve_injects).classes = [exClass] ∧
    exClass.injects = ["serializable"] ∧
    exDoc.proxy_properties = [{ tags := ["serializable"], item := exProxyProp }] ∧
    ((exDoc.resolve_injects).classes.map (fun c => c.properties)) = [[]] := by
  refine ⟨rfl, rfl, rfl, rfl⟩

/-- C1 (amended): inject resolution injects proxies only into the
StructClasses of the `structs` list — for each of those, every registered
proxy whose tag set intersects the type's (then-drained) injection-tag set
has its item appended in proxy-registration order, so a proxy may enter
several struct hosts and an unmatched proxy is dropped — while the
`enums`, `classes` and `functions` lists are left entirely unchanged
(classes never receive proxies and keep their tag sets). -/
theorem c1_inject_resolution_structs_only (d : Document) :
    (d.resolve_injects).enums = d.enums ∧
    (d.resolve_injects).classes = d.classes ∧
    (d.resolve_injects).functions = d.functions ∧
    (d.resolve_injects).structs = d.structs.map (fun sc =>
      { sc with
        injects := [],
        methods := sc.methods ++
          (d.proxy_functions.filter
            (fun p => sc.injects.any (fun tag => p.tags.contains tag))).map Proxy.item,
        properties := sc.properties ++
          (d.proxy_properties.filter
            (fun p => sc.injects.any (fun tag => p.tags.contains tag))).map Proxy.item }) := by
  refine ⟨rfl, rfl, rfl, ?_⟩
  rw [resolve_injects_doc_eq]

/-- C4: running inject resolution a second time on an already-resolved
document is a no-op: the first run empties both proxy lists and the
consumed tag sets of the structs, so the second run changes nothing. -/
theorem c4_resolve_injects_idempotent (d : Document) :
    d.resolve_injects.resolve_injects = d.resolve_injects := by
  rw [resolve_injects_doc_eq d]
  simp only [Document.resolve_injects, List.map_map, Function.comp_def]
  rw [List.map_congr_left (fun sc _ => StructClass.resolve_injects_drained _ rfl)]

/-- C5: after inject resolution both transient proxy lists are empty, and
neither self-name substitution nor the sort pass ever writes to them. -/
theorem c5_proxy_lists_empty_after_resolution (d e : Document) :
    (d.resolve_injects).proxy_functions = [] ∧
    (d.resolve_injects).proxy_properties = [] ∧
    (e.resolve_self_names_in_docs).proxy_functions = e.proxy_functions ∧
    (e.resolve_self_names_in_docs).proxy_properties = e.proxy_properties ∧
    (e.sort_items_by_name).proxy_functions = e.proxy_functions ∧
    (e.sort_items_by_name).proxy_properties = e.proxy_properties :=
  ⟨rfl, rfl, rfl, rfl, rfl, rfl⟩

/-- A struct with no doc comments of its own but one documented public
property; used against the claim that undocumented declarations are never
exportable. -/
def scUndoc : StructClass :=
  { name := "FStats",
    properties := [{ name := "Health", value_type := "float", doc_comments := some "Hit points." }] }

/-- C3 (counterexample): with all settings off, a StructClass lacking doc
comments is still exportable when one of its members is, so `can_export`
is not false for every undocumented declaration kind. -/
theorem c3_counterexample :
    scUndoc.doc_comments = none ∧ s0.show_all = false ∧ scUndoc.can_export s0 = true :=
  ⟨rfl, rfl, rfl⟩

/-- C3 (amended): with show-all disabled, an undocumented Enum, Property
or Function is never exportable, regardless of visibility; an
undocumented StructClass is not exportable provided additionally none of
its properties or methods is exportable. -/
theorem c3_can_export_requires_docs :
    (∀ (e : Enum) (s : Settings), e.doc_comments = none → s.show_all = false →
      e.can_export s = false) ∧
    (∀ (p : Property) (s : Settings), p.doc_comments = none → s.show_all = false →
      p.can_export s = false) ∧
    (∀ (f : Function) (s : Settings), f.doc_comments = none → s.show_all = false →
      f.can_export s = false) ∧
    (∀ (sc : StructClass) (s : Settings), sc.doc_comments = none → s.show_all = false →
      (∀ p ∈ sc.properties, p.can_export s = false) →
      (∀ m ∈ sc.methods, m.can_export s = false) →
      sc.can_export s = false) := by
  refine ⟨?_, ?_, ?_, ?_⟩
  · intro e s hd hs
    simp [Enum.can_export, hd, hs]
  · intro p s hd _
    simp [Property.can_export, hd]
  · intro f s hd _
    simp [Function.can_export, hd]
  · intro sc s hd hs hp hm
    have hp' : sc.properties.any (fun e => e.can_export s) = false :=
      List.any_eq_false.mpr (fun x hx => by simp [hp x hx])
    have hm' : sc.methods.any (fun e => e.can_export s) = false :=
      List.any_eq_false.mpr (fun x hx => by simp [hm x hx])
    simp [StructClass.can_export, hd, hs, hp', hm']

/-- C3 witness: the amended statement evaluated on concrete undocumented
declarations under all-off settings. -/
theorem c3_witness :
    Enum.can_export { name := "EUndoc" } s0 = false ∧
    Property.can_export { name := "PUndoc", value_type := "int32" } s0 = false ∧
    Function.can_export { name := "FUndoc" } s0 = false ∧
    StructClass.can_export
      { name := "SUndoc", properties := [{ name := "PUndoc", value_type := "int32" }] } s0
      = false :=
  ⟨c3_can_export_requires_docs.1 _ s0 rfl rfl,
   c3_can_export_requires_docs.2.1 _ s0 rfl rfl,
   c3_can_export_requires_docs.2.2.1 _ s0 rfl rfl,
   c3_can_export_requires_docs.2.2.2 _ s0 rfl rfl (by decide) (by decide)⟩

/-- C2 (counterexample): admitting two exportable enums both named
`EStatus` leaves BOTH in the document's `enums` list (the filter by that
name has length two, not one) while exactly one overwrite diagnostic is
reported — refuting "contains exactly one entry with that name". -/
theorem c2_counterexample :
    parse_file s0 ({}, []) [.element (.Enum eA), .element (.Enum eB)] =
      some ({ enums := [eA, eB] }, ["Overwriting existing enum: EStatus"]) ∧
    ¬ ((([eA, eB] : List Enum).filter (fun e => e.name == "EStatus")).length = 1) := by
  refine ⟨by decide, by decide⟩

/-- C2 (amended): for every declaration kind — enum, struct, class and
loose function — admitting a second exportable declaration with the kind
and name of an already admitted one appends it after the first: both
occurrences stay in that kind's list, so only downstream consumers keyed
by name see the later one, and exactly one overwrite diagnostic naming
that kind is reported; the collision is non-fatal (parsing returns
`some`). -/
theorem c2_duplicate_admission_appends :
    (∀ (settings : Settings) (e1 e2 : Enum),
      e1.can_export settings = true → e2.can_export settings = true → e1.name = e2.name →
      parse_file settings ({}, []) [.element (.Enum e1), .element (.Enum e2)] =
        some ({ enums := [e1, e2] }, ["Overwriting existing enum: " ++ e2.name])) ∧
    (∀ (settings : Settings) (s1 s2 : StructClass),
      s1.mode = .Struct → s2.mode = .Struct →
      s1.can_export settings = true → s2.can_export settings = true → s1.name = s2.name →
      parse_file settings ({}, []) [.element (.StructClass s1), .element (.StructClass s2)] =
        some ({ structs := [s1, s2] }, ["Overwriting existing struct: " ++ s2.name])) ∧
    (∀ (settings : Settings) (c1 c2 : StructClass),
      c1.mode = .Class → c2.mode = .Class →
      c1.can_export settings = true → c2.can_export settings = true → c1.name = c2.name →
      parse_file settings ({}, []) [.element (.StructClass c1), .element (.StructClass c2)] =
        some ({ classes := [c1, c2] }, ["Overwriting existing class: " ++ c2.name])) ∧
    (∀ (settings : Settings) (f1 f2 : Function),
      f1.can_export settings = true → f2.can_export settings = true → f1.name = f2.name →
      parse_file settings ({}, []) [.element (.Function f1), .element (.Function f2)] =
        some ({ functions := [f1, f2] }, ["Overwriting existing function: " ++ f2.name])) := by
  refine ⟨?_, ?_, ?_, ?_⟩
  · intro settings e1 e2 h1 h2 hname
    simp [parse_file, admit_element, h1, h2, hname]
  · intro settings s1 s2 hm1 hm2 h1 h2 hname
    simp [parse_file, admit_element, hm1, hm2, h1, h2, hname]
  · intro settings c1 c2 hm1 hm2 h1 h2 hname
    simp [parse_file, admit_element, hm1, hm2, h1, h2, hname]
  · intro settings f1 f2 h1 h2 hname
    simp [parse_file, admit_element, h1, h2, hname]

/-- First of two same-named documented structs. -/
def stA : StructClass := { mode := .Struct, name := "FVec", doc_comments := some "First." }

/-- Second of two same-named documented structs. -/
def stB : StructClass := { mode := .Struct, name := "FVec", doc_comments := some "Second." }

/-- First of two same-named documented classes. -/
def clA : StructClass := { mode := .Class, name := "AFoo", doc_comments := some "First." }

/-- Second of two same-named documented classes. -/
def clB : StructClass := { mode := .Class, name := "AFoo", doc_comments := some "Second." }

/-- First of two same-named documented loose functions. -/
def fnA : Function := { name := "DoThing", doc_comments := some "First." }

/-- Second of two same-named documented loose functions. -/
def fnB : Function := { name := "DoThing", doc_comments := some "Second." }

/-- C2 witness: the amended statement on a concrete same-named pair of
each declaration kind. -/
theorem c2_witness :
    parse_file s0 ({}, []) [.element (.Enum eA), .element (.Enum eB)] =
      some ({ enums := [eA, eB] }, ["Overwriting existing enum: " ++ eB.name]) ∧
    parse_file s0 ({}, []) [.element (.StructClass stA), .element (.StructClass stB)] =
      some ({ structs := [stA, stB] }, ["Overwriting existing struct: " ++ stB.name]) ∧
    parse_file s0 ({}, []) [.element (.StructClass clA), .element (.StructClass clB)] =
      some ({ classes := [clA, clB] }, ["Overwriting existing class: " ++ clB.name]) ∧
    parse_file s0 ({}, []) [.element (.Function fnA), .element (.Function fnB)] =
      some ({ functions := [fnA, fnB] }, ["Overwriting existing function: " ++ fnB.name]) :=
  ⟨c2_duplicate_admission_appends.1 s0 eA eB rfl rfl rfl,
   c2_duplicate_admission_appends.2.1 s0 stA stB rfl rfl rfl rfl rfl,
   c2_duplicate_admission_appends.2.2.1 s0 clA clB rfl rfl rfl rfl rfl,
   c2_duplicate_admission_appends.2.2.2 s0 fnA fnB rfl rfl rfl⟩

/-- Admitting one element only ever appends to the four top-level lists. -/
theorem admit_element_extends (settings : Settings) (acc : Document × List String)
    (el : Element) :
    ∃ t1 t2 t3 t4,
      (admit_element settings acc el).1.enums = acc.1.enums ++ t1 ∧
      (admit_element settings acc el).1.structs = acc.1.structs ++ t2 ∧
      (admit_element settings acc el).1.classes = acc.1.classes ++ t3 ∧
      (admit_element settings acc el).1.functions = acc.1.functions ++ t4 := by
  cases el with
  | None => exact ⟨[], [], [], [], by simp [admit_element]⟩
  | Enum e =>
    by_cases h : e.can_export settings
    · exact ⟨[e], [], [], [], by simp [admit_element, h]⟩
    · exact ⟨[], [], [], [], by simp [admit_element, h]⟩
  | StructClass e =>
    by_cases h : e.can_export settings
    · cases hm : e.mode with
      | Struct => exact ⟨[], [e], [], [], by simp [admit_element, h, hm]⟩
      | Class => exact ⟨[], [], [e], [], by simp [admit_element, h, hm]⟩
    · cases hm : e.mode with
      | Struct => exact ⟨[], [], [], [], by simp [admit_element, h, hm]⟩
      | Class => exact ⟨[], [], [], [], by simp [admit_element, h, hm]⟩
  | Property e => exact ⟨[], [], [], [], by simp [admit_element]⟩
  | Function e =>
    by_cases h : e.can_export settings
    · exact ⟨[], [], [], [e], by simp [admit_element, h]⟩
    · exact ⟨[], [], [], [], by simp [admit_element, h]⟩

/-- Registering a proxy never touches the four top-level lists. -/
theorem parse_proxy_preserves (dc : Option String) (tags : List String) (content : Element)
    (d : Document) :
    (parse_proxy dc tags content d).enums = d.enums ∧
    (parse_proxy dc tags content d).structs = d.structs ∧
    (parse_proxy dc tags content d).classes = d.classes ∧
    (parse_proxy dc tags content d).functions = d.functions := by
  cases content <;> cases dc <;> simp [parse_proxy]

/-- Registering a snippet never touches the four top-level lists. -/
theorem parse_snippet_preserves (id content : String) (acc acc' : Document × List String)
    (h : parse_snippet id content acc = some acc') :
    acc'.1.enums = acc.1.enums ∧ acc'.1.structs = acc.1.structs ∧
    acc'.1.classes = acc.1.classes ∧ acc'.1.functions = acc.1.functions := by
  unfold parse_snippet at h
  cases hin : parse_snippet_inner content with
  | none => rw [hin] at h; cases h
  | some text =>
    rw [hin] at h
    cases h
    simp

/-- C8: `parse_file` only appends to the four top-level declaration lists,
so when parsing completes every previously admitted entry is unchanged
and still present, in its original position. -/
theorem c8_admission_append_only (settings : Settings) (entries : List FileEntry) :
    ∀ (acc out : Document × List String), parse_file settings acc entries = some out →
      ∃ t1 t2 t3 t4,
        out.1.enums = acc.1.enums ++ t1 ∧
        out.1.structs = acc.1.structs ++ t2 ∧
        out.1.classes = acc.1.classes ++ t3 ∧
        out.1.functions = acc.1.functions ++ t4 := by
  induction entries with
  | nil =>
    intro acc out h
    simp only [parse_file, Option.some.injEq] at h
    exact ⟨[], [], [], [], by simp [← h]⟩
  | cons entry rest ih =>
    intro acc out h
    cases entry with
    | element el =>
      simp only [parse_file] at h
      obtain ⟨t1, t2, t3, t4, ht1, ht2, ht3, ht4⟩ := ih _ _ h
      obtain ⟨u1, u2, u3, u4, hu1, hu2, hu3, hu4⟩ := admit_element_extends settings acc el
      exact ⟨u1 ++ t1, u2 ++ t2, u3 ++ t3, u4 ++ t4,
        by rw [ht1, hu1, List.append_assoc], by rw [ht2, hu2, List.append_assoc],
        by rw [ht3, hu3, List.append_assoc], by rw [ht4, hu4, List.append_assoc]⟩
    | proxy dc tags content =>
      simp only [parse_file] at h
      obtain ⟨t1, t2, t3, t4, ht1, ht2, ht3, ht4⟩ := ih _ _ h
      obtain ⟨hu1, hu2, hu3, hu4⟩ := parse_proxy_preserves dc tags content acc.1
      exact ⟨t1, t2, t3, t4,
        by rw [ht1]; simp [hu1], by rw [ht2]; simp [hu2],
        by rw [ht3]; simp [hu3], by rw [ht4]; simp [hu4]⟩
    | snippet id content =>
      simp only [parse_file] at h
      cases hs : parse_snippet id content acc with
      | none => rw [hs] at h; cases h
      | some acc' =>
        rw [hs] at h
        obtain ⟨t1, t2, t3, t4, ht1, ht2, ht3, ht4⟩ := ih _ _ h
        obtain ⟨hu1, hu2, hu3, hu4⟩ := parse_snippet_preserves id content acc acc' hs
        exact ⟨t1, t2, t3, t4,
          by rw [ht1, hu1], by rw [ht2, hu2], by rw [ht3, hu3], by rw [ht4, hu4]⟩

/-- C8 witness: the append-only property evaluated on a run admitting one
documented enum on top of a document already holding `eA`. -/
theorem c8_witness :
    ∃ t1 t2 t3 t4,
      (({ enums := [eA, eB] } : Document)).enums = ({ enums := [eA] } : Document).enums ++ t1 ∧
      (({ enums := [eA, eB] } : Document)).structs = ({ enums := [eA] } : Document).structs ++ t2 ∧
      (({ enums := [eA, eB] } : Document)).classes = ({ enums := [eA] } : Document).classes ++ t3 ∧
      (({ enums := [eA, eB] } : Document)).functions =
        ({ enums := [eA] } : Document).functions ++ t4 :=
  c8_admission_append_only s0 [.element (.Enum eB)]
    ({ enums := [eA] }, []) ({ enums := [eA, eB] }, ["Overwriting existing enum: EStatus"])
    (by decide)

/-- The placeholder `"$Self$"` as an explicit character list. -/
def selfPat : List Char := ['$', 'S', 'e', 'l', 'f', '$']

theorem selfPat_toList : "$Self$".toList = selfPat := rfl

theorem replaceList_not_occ (pat repl : List Char) :
    ∀ s : List Char, hasOcc pat s = false → replaceList pat repl s = s := by
  intro s
  induction s with
  | nil => intro _; simp [replaceList]
  | cons c rest ih =>
    intro h
    simp only [hasOcc, Bool.or_eq_false_iff] at h
    have hneg : ¬ (pat ≠ [] ∧ pat.isPrefixOf (c :: rest) = true) := by
      rintro ⟨-, hpre⟩
      simp [h.1] at hpre
    rw [replaceList, dif_neg hneg, ih h.2]

theorem replaceList_skip (repl : List Char) (p t : List Char) (hp : ∀ c ∈ p, c ≠ '$') :
    replaceList selfPat repl (p ++ t) = p ++ replaceList selfPat repl t := by
  induction p with
  | nil => simp
  | cons c cs ih =>
    have hc : c ≠ '$' := hp c (by simp)
    have hneg : ¬ (selfPat ≠ [] ∧ selfPat.isPrefixOf (c :: (cs ++ t)) = true) := by
      rintro ⟨-, hpre⟩
      simp [selfPat, List.isPrefixOf_cons₂] at hpre
      exact hc hpre.1.symm
    rw [List.cons_append, replaceList, dif_neg hneg, ih (fun x hx => hp x (by simp [hx]))]
    rfl

theorem isPrefixOf_append_self {α : Type} [BEq α] [LawfulBEq α] :
    ∀ (l t : List α), l.isPrefixOf (l ++ t) = true := by
  intro l t
  induction l with
  | nil => simp
  | cons a as ih => simp [List.isPrefixOf_cons₂, ih]

theorem replaceList_at_pat (repl t : List Char) :
    replaceList selfPat repl (selfPat ++ t) = repl ++ replaceList selfPat repl t := by
  have hpos : selfPat ≠ [] ∧ selfPat.isPrefixOf ('$' :: (['S', 'e', 'l', 'f', '$'] ++ t)) = true := by
    constructor
    · simp [selfPat]
    · exact isPrefixOf_append_self selfPat t
  show replaceList selfPat repl ('$' :: (['S', 'e', 'l', 'f', '$'] ++ t)) = _
  rw [replaceList, dif_pos hpos]
  congr 1

theorem intercalate_cons_cons (sep a b : List Char) (l : List (List Char)) :
    List.intercalate sep (a :: b :: l) = a ++ sep ++ List.intercalate sep (b :: l) := by
  simp [List.intercalate]

theorem replaceList_intercalate (repl : List Char) :
    ∀ (parts : List (List Char)), (∀ p ∈ parts, ∀ c ∈ p, c ≠ '$') →
      replaceList selfPat repl (List.intercalate selfPat parts) =
        List.intercalate repl parts := by
  intro parts
  induction parts with
  | nil => intro _; simp [List.intercalate, replaceList]
  | cons a rest ih =>
    intro hp
    have ha : ∀ c ∈ a, c ≠ '$' := hp a (by simp)
    cases rest with
    | nil =>
      calc replaceList selfPat repl (List.intercalate selfPat [a])
          = replaceList selfPat repl (a ++ []) := by simp [List.intercalate]
        _ = a ++ replaceList selfPat repl [] := replaceList_skip repl a [] ha
        _ = a := by simp [replaceList]
        _ = List.intercalate repl [a] := by simp [List.intercalate]
    | cons b rest' =>
      rw [intercalate_cons_cons, List.append_assoc, replaceList_skip repl a _ ha,
        replaceList_at_pat, ih (fun p hmem => hp p (by simp [hmem])),
        intercalate_cons_cons repl]
      simp [List.append_assoc]

theorem argument_resolve_none (a : Argument) : a.resolve_self_names_in_docs none = a := by
  cases h : a.doc_comments <;> simp [Argument.resolve_self_names_in_docs]

theorem function_resolve_none (f : Function) : f.resolve_self_names_in_docs none = f := by
  have harg : f.arguments.map (fun a => a.resolve_self_names_in_docs none) = f.arguments := by
    rw [List.map_congr_left (fun a _ => argument_resolve_none a)]
    exact List.map_id' f.arguments
  cases h : f.doc_comments <;> simp [Function.resolve_self_names_in_docs, harg]

/-- C6: the substitution pass replaces every occurrence of the `$Self$`
placeholder in a doc comment with the owner's name (conjunct five, where
the comment is an arbitrary interleaving of placeholder-free segments and
placeholders), leaves comments without the placeholder unchanged
(conjunct four), substitutes the enum's own name as owner (conjunct
three), and leaves top-level loose functions and their arguments — which
are resolved with no owner — untouched (conjuncts one and two). -/
theorem c6_self_name_substitution :
    (∀ f : Function, f.resolve_self_names_in_docs none = f) ∧
    (∀ d : Document, (d.resolve_self_names_in_docs).functions = d.functions) ∧
    (∀ e : Enum, (e.resolve_self_names_in_docs).doc_comments =
      e.doc_comments.map (fun content => replace_self_names content e.name)) ∧
    (∀ content owner : String, hasOcc "$Self$".toList content.toList = false →
      replace_self_names content owner = content) ∧
    (∀ (owner : String) (parts : List (List Char)), (∀ p ∈ parts, ∀ c ∈ p, c ≠ '$') →
      replace_self_names (String.mk (List.intercalate "$Self$".toList parts)) owner =
        String.mk (List.intercalate owner.toList parts)) := by
  refine ⟨function_resolve_none, ?_, ?_, ?_, ?_⟩
  · intro d
    show d.functions.map (fun f => f.resolve_self_names_in_docs none) = d.functions
    rw [List.map_congr_left (fun f _ => function_resolve_none f)]
    exact List.map_id' d.functions
  · intro e
    cases h : e.doc_comments <;> simp [Enum.resolve_self_names_in_docs, h]
  · intro content owner h
    show String.mk (replaceList "$Self$".toList owner.toList content.toList) = content
    rw [replaceList_not_occ "$Self$".toList owner.toList content.toList h]
    rfl
  · intro owner parts hp
    show String.mk (replaceList "$Self$".toList owner.toList
      (String.mk (List.intercalate "$Self$".toList parts)).toList) = _
    rw [selfPat_toList]
    show String.mk (replaceList selfPat owner.toList (List.intercalate selfPat parts)) = _
    rw [replaceList_intercalate owner.toList parts hp]

/-- C6 witness: a placeholder-free comment is unchanged, and a comment
with two placeholder occurrences has both replaced by the owner name. -/
theorem c6_witness :
    replace_self_names "The type name." "FVec" = "The type name." ∧
    replace_self_names
        (String.mk (List.intercalate "$Self$".toList [['U', 's', 'e'], [' ', 'o', 'r'], ['.']]))
        "FVec" =
      String.mk (List.intercalate "FVec".toList [['U', 's', 'e'], [' ', 'o', 'r'], ['.']]) :=
  ⟨c6_self_name_substitution.2.2.2.1 "The type name." "FVec" (by decide),
   c6_self_name_substitution.2.2.2.2 "FVec" [['U', 's', 'e'], [' ', 'o', 'r'], ['.']] (by decide)⟩

/-- C7 (the code at the failing input): for the snippet body
`"　  a\n   b"` (U+3000 IDEOGRAPHIC SPACE, two spaces, `a`; newline;
three spaces, `b`) the per-line leading-whitespace character counts are
`[3, 3]`, so the dedent level is 3 — yet the emitted first line is
`"  a"`: three BYTES (the single three-byte U+3000 character), not three
characters, were removed, while the claim demands `"a"`.  On all-ASCII
whitespace, e.g. counts `[4, 2, 6]`, the code does strip `min = 2`-many
characters, as the spec's example states. -/
theorem c7_dedent_strips_bytes_not_chars :
    ((rustLines "　  a\n   b".toList).map
      (fun l => (l.takeWhile rustIsWhitespace).length)) = [3, 3] ∧
    parse_snippet_inner "　  a\n   b" = some "  a\nb" ∧
    parse_snippet_inner "    a\n  b\n      c" = some "  a\nb\n    c" := by
  refine ⟨by decide, by decide, by decide⟩

/-- C9 (the code at the failing input): for the snippet body
`"　a\n  b"` the dedent level is 1, and byte-slicing the first line at
byte index 1 lands inside the three-byte U+3000 character: the model
returns `none`, i.e. Rust's `line[level..]` panics, so snippet dedenting
is not total. -/
theorem c9_dedent_not_total :
    parse_snippet_inner "　a\n  b" = none := by decide

theorem joinSep_variants (vs : List String) :
    joinSep ",\n" (vs.map (fun v => "    " ++ v)) = enum_variants_block vs := by
  induction vs with
  | nil => rfl
  | cons v tail ih =>
    cases tail with
    | nil => rfl
    | cons w ws =>
      simp only [List.map_cons] at ih ⊢
      rw [joinSep, enum_variants_block, ih]

/-- C10: every enum's signature projection is exactly the fixed form
`enum class <name> : uint8 {` + newline + the variants each indented four
spaces and joined by `",\n"` + `"\n};"` — the keyword `enum class` and the
underlying type `uint8` appear for every enum, since the parsed `Enum`
record retains nothing about how the declaration was written. -/
theorem c10_enum_signature_fixed_form (e : Enum) :
    e.signature = enum_signature_of_claim e := by
  simp only [Enum.signature, enum_signature_of_claim, joinSep_variants]

end UnrealDoc
